import Mathlib

/-!
Verification of the `kdc-bigquery-connector` plugin (lib/index.js) against its
natural-language specification.  The JavaScript source is shallowly embedded:
JS values become the inductive type `JSVal`, JS objects become association
lists in iteration order, promise/throw outcomes become `Except`, and the
external BigQuery client and logger are modelled by explicit outcome
parameters and call/log traces.
-/

set_option autoImplicit false

namespace KdcBigQuery

/-- A JavaScript value: `undefined`, `null`, booleans, numbers (modelled as
integers; no claim depends on float behaviour), strings, arrays, and plain
objects.  An object is its list of own enumerable string-keyed entries in
iteration order; JS objects never hold two entries with the same key. -/
inductive JSVal where
  | vUndefined
  | vNull
  | vBool (b : Bool)
  | vNum (n : Int)
  | vStr (s : String)
  | vArr (elems : List JSVal)
  | vObj (entries : List (String × JSVal))
deriving Repr

/-- JS truthiness: `undefined`, `null`, `false`, `0` and `""` are falsy;
every array and object is truthy. -/
def JSVal.truthy : JSVal → Bool
  | .vUndefined => false
  | .vNull => false
  | .vBool b => b
  | .vNum n => n != 0
  | .vStr s => s != ""
  | .vArr _ => true
  | .vObj _ => true

/-- Condition `typeof v == 'object' && v !== null`: the condition under which
`flattenObject` recurses into a value.  Arrays satisfy it too. -/
def JSVal.isObjLike : JSVal → Bool
  | .vArr _ => true
  | .vObj _ => true
  | _ => false

/-- Test `Array.isArray`. -/
def JSVal.isArray : JSVal → Bool
  | .vArr _ => true
  | _ => false

/-- Test `typeof v == 'undefined'`. -/
def JSVal.isUndefined : JSVal → Bool
  | .vUndefined => true
  | _ => false

/-- Property read `obj[k]` on an object's entry list: first entry with the
key (JS objects have unique keys), `undefined` when absent. -/
def getField (es : List (String × JSVal)) (k : String) : JSVal :=
  match es.find? (fun p => p.1 == k) with
  | some p => p.2
  | none => .vUndefined

/-- Property write `obj[k] = v` on an entry list: overwriting an existing
key keeps its position in iteration order (JS semantics), a fresh key is
appended. -/
def setKey (es : List (String × JSVal)) (k : String) (v : JSVal) :
    List (String × JSVal) :=
  if es.any (fun p => p.1 == k) then
    es.map (fun p => if p.1 == k then (k, v) else p)
  else
    es ++ [(k, v)]

/-- Loop `for (var x in src) { dst[x] = src[x] }` where `src` has unique keys:
fold the entries of `src` into `dst` by property writes. -/
def mergeEntries (dst src : List (String × JSVal)) : List (String × JSVal) :=
  src.foldl (fun acc p => setKey acc p.1 p.2) dst

/-- Iteration `for..in` over a primitive string enumerates its character indices; each
`object[i]` is then a one-character string (`typeof` 'string', copied as-is
by `flattenObject`). -/
def stringEntries (s : String) : List (String × JSVal) :=
  s.data.enum.map (fun p => (toString p.1, JSVal.vStr (String.mk [p.2])))

mutual
/-- Function `flattenObject` from lib/index.js: merges the recursively flattened
entries of every value with `typeof == 'object' && !== null` (objects AND
arrays) into the result without prefixing; all other values are copied
as-is under their own key.  `for..in` over an array yields its indices as
string keys; over a primitive string, its character indices; over any other
primitive, nothing. -/
def flattenObject : JSVal → List (String × JSVal)
  | .vObj es => flattenEntries es []
  | .vArr xs => flattenElems xs 0 []
  | .vStr s => stringEntries s
  | _ => []

/-- The `for (var i in object)` loop body of `flattenObject` over an
object's entries, with the accumulated `toReturn`. -/
def flattenEntries :
    List (String × JSVal) → List (String × JSVal) → List (String × JSVal)
  | [], acc => acc
  | (k, v) :: rest, acc =>
    if v.isObjLike then
      flattenEntries rest (mergeEntries acc (flattenObject v))
    else
      flattenEntries rest (setKey acc k v)

/-- The same loop over an array, whose `for..in` keys are the decimal
indices. -/
def flattenElems :
    List JSVal → Nat → List (String × JSVal) → List (String × JSVal)
  | [], _, acc => acc
  | v :: rest, i, acc =>
    if v.isObjLike then
      flattenElems rest (i + 1) (mergeEntries acc (flattenObject v))
    else
      flattenElems rest (i + 1) (setKey acc (toString i) v)
end

/-- Characters `normalizeFieldName` keeps: a character is kept iff it matches the character class
`[A-Z^a-z^0-9^_]` of the source regex `/[^A-Z^a-z^0-9^_]/g`.  Inside a
character class a non-leading `^` is a literal, so the class is
`{A-Z, a-z, 0-9, _, ^}` and its negation is what gets replaced. -/
def isKeptChar (c : Char) : Bool :=
  ('A' ≤ c && c ≤ 'Z') || ('a' ≤ c && c ≤ 'z') || ('0' ≤ c && c ≤ '9') ||
    c == '_' || c == '^'

/-- A character of the class `[A-Za-z0-9_]` (the "warehouse-legal" class the
spec names; note it does NOT contain `^`). -/
def isWordChar (c : Char) : Bool :=
  ('A' ≤ c && c ≤ 'Z') || ('a' ≤ c && c ≤ 'z') || ('0' ≤ c && c ≤ '9') ||
    c == '_'

/-- Function `normalizeFieldName` from lib/index.js:
`fieldName.replace(/[^A-Z^a-z^0-9^_]/g, '_')` — every character outside the
class `{A-Z, a-z, 0-9, _, ^}` is replaced by `_` (global flag). -/
def normalizeFieldName (fieldName : String) : String :=
  String.mk (fieldName.data.map (fun c => if isKeptChar c then c else '_'))

/-- Function `normalizeMeasureData` from lib/index.js: a fresh object whose entries
are the input's entries with normalized keys, written in key order
(`Object.keys(data).forEach(key => normalized[normalizeFieldName(key)] = data[key])`). -/
def normalizeMeasureData (data : List (String × JSVal)) : List (String × JSVal) :=
  data.foldl (fun acc p => setKey acc (normalizeFieldName p.1) p.2) []

/-- Function `extractMeasureData` from lib/index.js, on an object-valued `data` (the
data model's "mapping"; `measure.data` is always an object).  The branch is
taken on the TRUTHINESS of `data.content` (`if (data.content)`). -/
def extractMeasureData (data : List (String × JSVal)) : JSVal :=
  if (getField data "content").truthy then
    .vArr [.vObj (normalizeMeasureData (flattenObject (getField data "content")))]
  else
    .vObj (normalizeMeasureData data)

/-- One BigQuery field spec `{name, type, mode}`. -/
structure BQField where
  name : String
  type : String
  mode : String
deriving Repr, DecidableEq

/-- A BigQuery table schema `{fields: [...]}`. -/
structure BQSchema where
  fields : List BQField
deriving Repr, DecidableEq

/-- The `{name: 'timestamp', type: 'TIMESTAMP', mode: 'REQUIRED'}` field. -/
def timestampField : BQField :=
  { name := "timestamp", type := "TIMESTAMP", mode := "REQUIRED" }

/-- Function `buildMonitorSchema` from lib/index.js: one
`{name: normalizeFieldName(hook), type: 'INTEGER', mode: 'NULLABLE'}` field
per hook in order, then the trailing timestamp field, wrapped in
`{fields: ...}`. -/
def buildMonitorSchema (hooks : List String) : BQSchema :=
  { fields :=
      hooks.map (fun hookName =>
        { name := normalizeFieldName hookName, type := "INTEGER",
          mode := "NULLABLE" }) ++ [timestampField] }

/-- One probe's configuration object.  `type` and `tableName` are string
fields (absent = `undefined`); `schema` is either absent or a well-formed
`{fields: [...]}` object (a present schema object is always truthy in JS);
`hooks` and `timestamp` keep full JS generality because the source inspects
their type/truthiness (`Array.isArray(probe.hooks)`, `probe.timestamp`). -/
structure ProbeConfig where
  type : Option String := none
  tableName : Option String := none
  schema : Option BQSchema := none
  hooks : JSVal := .vUndefined
  timestamp : JSVal := .vUndefined
deriving Repr

/-- Truthiness of an optional string field (`undefined` and `""` are falsy). -/
def optStrTruthy : Option String → Bool
  | none => false
  | some s => s != ""

/-- The probe registry `this.probes`: probe name to configuration, in key
order.  JS object keys are unique. -/
abbrev Registry := List (String × ProbeConfig)

/-- Registry lookup `this.probes[probeName]`. -/
def findProbe (probes : Registry) (probeName : String) : Option ProbeConfig :=
  match probes.find? (fun p => p.1 == probeName) with
  | some p => some p.2
  | none => none

/-- Function `getTableForProbe` from lib/index.js: `null` when the probe is not
registered, the probe name itself when its `tableName` is falsy (absent or
`""`), else the configured `tableName`. -/
def getTableForProbe (probes : Registry) (probeName : String) : Option String :=
  match findProbe probes probeName with
  | none => none
  | some probe =>
    match probe.tableName with
    | none => some probeName
    | some t => if t = "" then some probeName else some t

/-- Extract the hook names when every element of an array is a string.  A
non-string element would make `hookName.replace` throw a `TypeError` in
`normalizeFieldName`; that branch is modelled by the error below. -/
def toStrings : List JSVal → Option (List String)
  | [] => some []
  | .vStr s :: rest => (toStrings rest).map (fun l => s :: l)
  | _ :: _ => none

/-- The fixed counter schema from `getSchemaForProbe`. -/
def counterSchema : BQSchema :=
  { fields :=
      [{ name := "count", type := "INTEGER", mode := "REQUIRED" },
        timestampField] }

/-- Function `getSchemaForProbe` from lib/index.js.  Result: the schema together with
the probe configuration as it is left afterwards — the watcher branch
MUTATES the stored probe (`probe.schema.fields.push(...)` appends to the
probe's own schema before returning it).  A `throw` is an `Except.error`
carrying the message. -/
def getSchemaForProbe (probe : ProbeConfig) :
    Except String (BQSchema × ProbeConfig) :=
  match probe.schema with
  | some sch =>
    if probe.type = some "watcher" && probe.timestamp.truthy then
      let sch' : BQSchema := { fields := sch.fields ++ [timestampField] }
      .ok (sch', { probe with schema := some sch' })
    else
      .ok (sch, probe)
  | none =>
    if !optStrTruthy probe.type then
      .error "Type field is mandatory in probes that do not provide schema"
    else if probe.type = some "monitor" then
      match probe.hooks with
      | .vArr xs =>
        match toStrings xs with
        | some names => .ok (buildMonitorSchema names, probe)
        | none => .error "hookName.replace is not a function"
      | _ => .error "Monitor probes must have an \"hooks\" field, of type Array."
    else if probe.type = some "counter" then
      .ok (counterSchema, probe)
    else
      .error ("Schema is mandatory for probes of type "
        ++ (probe.type.getD ""))

/-- One outbound warehouse operation issued through the BigQuery client. -/
inductive WCall where
  | existsCheck (dataset table : String)
  | createTable (dataset table : String) (schema : BQSchema)
  | insertRows (dataset table : String) (rows : JSVal)
deriving Repr

/-- Outcome of the external `table.exists()` call: resolves `[true]`,
resolves `[false]`, or rejects. -/
inductive ExistsOutcome where
  | yes
  | no
  | failed
deriving Repr, DecidableEq

/-- Outcome of the external `dataset.createTable(...)` call. -/
inductive CreateOutcome where
  | ok
  | failed
deriving Repr, DecidableEq

/-- Outcome of the external `table.insert(data)` call, with the rejection's
`e.message` when it fails. -/
inductive InsertOutcome where
  | ok
  | failed (msg : String)
deriving Repr, DecidableEq

/-- A record written to the logging collaborator (`this.context.log` /
`console`). -/
inductive LogEntry where
  | info (s : String)
  | infoData (v : JSVal)
  | error (s : String)
deriving Repr

/-- Replace the stored configuration of `probeName`: the in-place mutation
of the shared probe object is, for a registry with unique keys, replacement
of that probe's entry. -/
def setProbe (probes : Registry) (probeName : String) (pc : ProbeConfig) :
    Registry :=
  probes.map (fun p => if p.1 == probeName then (probeName, pc) else p)

/-- Function `createTableIfNotExists` from lib/index.js, with the two remote calls
replaced by their outcomes.  Returns the promise outcome, the registry as
left behind (`getSchemaForProbe` can mutate the probe), and the warehouse
calls issued.  The first `.catch` runs on a `[false]` existence result or a
failed existence call; a `getSchemaForProbe` throw inside it, or a failed
`createTable`, lands in the final `.catch`, which logs and rejects. -/
def createTableIfNotExists (probes : Registry) (dataSet probeName : String)
    (exOut : ExistsOutcome) (crOut : CreateOutcome) :
    Except Unit Unit × Registry × List WCall :=
  match getTableForProbe probes probeName with
  | none => (.ok (), probes, [])
  | some tableName =>
    if tableName = "" then (.ok (), probes, [])
    else
    let probe := (findProbe probes probeName).getD {}
    match exOut with
    | .yes => (.ok (), probes, [.existsCheck dataSet tableName])
    | _ =>
      match getSchemaForProbe probe with
      | .error _ => (.error (), probes, [.existsCheck dataSet tableName])
      | .ok (schema, probe') =>
        let probes' := setProbe probes probeName probe'
        match crOut with
        | .ok =>
          (.ok (), probes',
            [.existsCheck dataSet tableName,
              .createTable dataSet tableName schema])
        | .failed =>
          (.error (), probes',
            [.existsCheck dataSet tableName,
              .createTable dataSet tableName schema])

/-- An incoming measure `{probeName, data}`; per the data model `data` is a
mapping (a JS object), embedded as its entry list. -/
structure Measure where
  probeName : String
  data : List (String × JSVal)
deriving Repr

/-- The effect of the statement `data[0].timestamp = ts`.  On the array
produced by the content branch, `data[0]` is the first element and the
property write lands on it.  On the plain object produced by the other
branch, `data[0]` reads property `"0"`: writing `.timestamp` on `undefined`
(or, in strict mode, on a primitive) throws a `TypeError`; on a nested
object it updates that object in place.  A property written on an array
value is not observable in this model of arrays-as-element-lists and is
dropped. -/
def injectTimestamp (data : JSVal) (ts : Int) : Except Unit JSVal :=
  let setOn : JSVal → Except Unit JSVal := fun v =>
    match v with
    | .vObj es => .ok (.vObj (setKey es "timestamp" (.vNum ts)))
    | .vArr xs => .ok (.vArr xs)
    | _ => .error ()
  match data with
  | .vArr [] => .error ()
  | .vArr (x :: rest) => (setOn x).map (fun x' => .vArr (x' :: rest))
  | .vObj es =>
    match getField es "0" with
    | .vUndefined => .error ()
    | v => (setOn v).map (fun v' => .vObj (setKey es "0" v'))
  | _ => .error ()

/-- What one `saveMeasure` invocation produces: its synchronous outcome
(`.error ()` models an uncaught `throw`; the function otherwise returns
`undefined` — the insert promise is NOT returned to the caller), the
warehouse calls issued, and the log records written. -/
structure SaveResult where
  outcome : Except Unit Unit
  calls : List WCall
  logs : List LogEntry
deriving Repr

/-- The separator line logged by `saveMeasure`. -/
def dashLine : String := "-----------------------------------------"

/-- The tail of `saveMeasure` from the `insert` call on: the call is issued,
then `.then` logs success or `.catch` logs the failure; either way the
rejection is swallowed. -/
def finishInsert (dataSet tableName : String) (data : JSVal)
    (probeName : String) (ins : InsertOutcome) (logs0 : List LogEntry) :
    SaveResult :=
  { outcome := .ok ()
    calls := [.insertRows dataSet tableName data]
    logs := logs0 ++
      match ins with
      | .ok => [.info ("Saved measure from " ++ probeName)]
      | .failed msg =>
        [.error ("Something weird happened while saving the measure: "
          ++ msg)] }

/-- The guard
`this.probes[measure.probeName] && typeof this.probes[...].timestamp != 'undefined' && this.probes[...].timestamp`
deciding whether `saveMeasure` injects the client-side timestamp. -/
def tsFlagOf (probes : Registry) (probeName : String) : Bool :=
  match findProbe probes probeName with
  | some probe => !probe.timestamp.isUndefined && probe.timestamp.truthy
  | none => false

/-- Function `saveMeasure` from lib/index.js.  Resolves the table name (silent return
when falsy), extracts the rows, logs them, injects the client timestamp
when the probe exists and its `timestamp` field is defined and truthy
(`data[0].timestamp = Math.round(Date.now()/1000)`, here `nowSec`), then
inserts; the insert outcome is only logged. -/
def saveMeasure (probes : Registry) (dataSet : String) (measure : Measure)
    (nowSec : Int) (ins : InsertOutcome) : SaveResult :=
  match getTableForProbe probes measure.probeName with
  | none => { outcome := .ok (), calls := [], logs := [] }
  | some tableName =>
    if tableName = "" then { outcome := .ok (), calls := [], logs := [] }
    else
      let data := extractMeasureData measure.data
      let logs0 : List LogEntry := [.info dashLine, .infoData data, .info dashLine]
      if tsFlagOf probes measure.probeName then
        match injectTimestamp data nowSec with
        | .error _ => { outcome := .error (), calls := [], logs := logs0 }
        | .ok data' => finishInsert dataSet tableName data' measure.probeName ins logs0
      else
        finishInsert dataSet tableName data measure.probeName ins logs0

/-- The configuration shape on which `getSchemaForProbe` mutates the stored
probe: an explicit schema together with `type: 'watcher'` and a truthy
`timestamp` flag. -/
def WatcherTsCase (probe : ProbeConfig) : Prop :=
  probe.schema.isSome = true ∧ probe.type = some "watcher" ∧
    probe.timestamp.truthy = true

/-- The registry's probe names are pairwise distinct (JS object invariant). -/
def RegistryKeysNodup (probes : Registry) : Prop :=
  (probes.map (fun p => p.1)).Nodup

/-! ## Helper lemmas about property writes and flattening -/

/-- No value stored in the entry list is an object or an array. -/
def FlatVals (es : List (String × JSVal)) : Prop :=
  ∀ p ∈ es, p.2.isObjLike = false

/-- The keys of the entry list are pairwise distinct (JS object invariant). -/
def KeysNodup (es : List (String × JSVal)) : Prop :=
  (es.map (fun p => p.1)).Nodup

theorem any_key_eq_false_iff (es : List (String × JSVal)) (k : String) :
    es.any (fun p => p.1 == k) = false ↔ k ∉ es.map (fun p => p.1) := by
  constructor
  · intro h hk
    obtain ⟨p, hp, hpk⟩ := List.mem_map.mp hk
    have htrue : es.any (fun p => p.1 == k) = true :=
      List.any_eq_true.mpr ⟨p, hp, by simpa using hpk⟩
    rw [h] at htrue
    exact Bool.noConfusion htrue
  · intro h
    by_contra hne
    have htrue : es.any (fun p => p.1 == k) = true := by
      cases hb : es.any (fun p => p.1 == k) with
      | true => rfl
      | false => exact absurd hb hne
    obtain ⟨p, hp, hpk⟩ := List.any_eq_true.mp htrue
    exact h (List.mem_map.mpr ⟨p, hp, by simpa using hpk⟩)

theorem setKey_of_fresh {es : List (String × JSVal)} {k : String} (v : JSVal)
    (h : k ∉ es.map (fun p => p.1)) : setKey es k v = es ++ [(k, v)] := by
  rw [setKey, (any_key_eq_false_iff es k).mpr h]
  simp

theorem mem_setKey {es : List (String × JSVal)} {k : String} {v : JSVal}
    {p : String × JSVal} (hp : p ∈ setKey es k v) : p ∈ es ∨ p = (k, v) := by
  rw [setKey] at hp
  split at hp
  · obtain ⟨q, hq, hpq⟩ := List.mem_map.mp hp
    by_cases hk : (q.1 == k) = true
    · right
      rw [← hpq, if_pos hk]
    · left
      rw [← hpq, if_neg hk]
      exact hq
  · rcases List.mem_append.mp hp with h | h
    · exact .inl h
    · right
      simpa using h

theorem keys_setKey_of_any {es : List (String × JSVal)} {k : String}
    (v : JSVal) (hany : es.any (fun p => p.1 == k) = true) :
    (setKey es k v).map (fun p => p.1) = es.map (fun p => p.1) := by
  rw [setKey, if_pos hany, List.map_map]
  apply List.map_congr_left
  intro p _
  by_cases hk : p.1 = k
  · simp [Function.comp, hk]
  · simp [Function.comp, hk]

theorem flatVals_setKey {es : List (String × JSVal)} {k : String} {v : JSVal}
    (hes : FlatVals es) (hv : v.isObjLike = false) :
    FlatVals (setKey es k v) := by
  intro p hp
  rcases mem_setKey hp with h | rfl
  · exact hes p h
  · exact hv

theorem keysNodup_setKey {es : List (String × JSVal)} {k : String} {v : JSVal}
    (hes : KeysNodup es) : KeysNodup (setKey es k v) := by
  unfold KeysNodup at *
  by_cases hany : es.any (fun p => p.1 == k) = true
  · rw [keys_setKey_of_any v hany]
    exact hes
  · have hfresh := (any_key_eq_false_iff es k).mp (Bool.eq_false_iff.mpr hany)
    rw [setKey_of_fresh v hfresh]
    simp only [List.map_append, List.map_cons, List.map_nil]
    refine List.Nodup.append hes (List.nodup_singleton k) ?_
    intro a ha hb
    simp only [List.mem_singleton] at hb
    subst hb
    exact hfresh ha

theorem flatVals_mergeEntries :
    ∀ (src dst : List (String × JSVal)), FlatVals dst → FlatVals src →
      FlatVals (mergeEntries dst src)
  | [], _, hd, _ => hd
  | p :: src', dst, hd, hs => by
    have hp : p.2.isObjLike = false := hs p (List.mem_cons_self p src')
    have hs' : FlatVals src' := fun q hq => hs q (List.mem_cons_of_mem p hq)
    exact flatVals_mergeEntries src' (setKey dst p.1 p.2)
      (flatVals_setKey hd hp) hs'

theorem keysNodup_mergeEntries :
    ∀ (src dst : List (String × JSVal)), KeysNodup dst →
      KeysNodup (mergeEntries dst src)
  | [], _, hd => hd
  | p :: src', dst, hd =>
    keysNodup_mergeEntries src' (setKey dst p.1 p.2) (keysNodup_setKey hd)

theorem flatVals_stringEntries (s : String) : FlatVals (stringEntries s) := by
  intro p hp
  obtain ⟨q, _, hpq⟩ := List.mem_map.mp hp
  rw [← hpq]
  rfl

mutual
theorem flattenObject_flatVals : ∀ v : JSVal, FlatVals (flattenObject v)
  | .vUndefined => fun p hp => absurd hp (List.not_mem_nil p)
  | .vNull => fun p hp => absurd hp (List.not_mem_nil p)
  | .vBool _ => fun p hp => absurd hp (List.not_mem_nil p)
  | .vNum _ => fun p hp => absurd hp (List.not_mem_nil p)
  | .vStr s => flatVals_stringEntries s
  | .vArr xs =>
    flattenElems_flatVals xs 0 [] (fun p hp => absurd hp (List.not_mem_nil p))
  | .vObj es =>
    flattenEntries_flatVals es [] (fun p hp => absurd hp (List.not_mem_nil p))

theorem flattenEntries_flatVals :
    ∀ (es acc : List (String × JSVal)), FlatVals acc →
      FlatVals (flattenEntries es acc)
  | [], _, h => h
  | (k, v) :: rest, acc, h => by
    show FlatVals (if v.isObjLike then
      flattenEntries rest (mergeEntries acc (flattenObject v))
      else flattenEntries rest (setKey acc k v))
    by_cases hv : v.isObjLike = true
    · rw [if_pos hv]
      exact flattenEntries_flatVals rest _
        (flatVals_mergeEntries _ _ h (flattenObject_flatVals v))
    · rw [if_neg hv]
      exact flattenEntries_flatVals rest _
        (flatVals_setKey h (Bool.eq_false_iff.mpr hv))

theorem flattenElems_flatVals :
    ∀ (xs : List JSVal) (i : Nat) (acc : List (String × JSVal)),
      FlatVals acc → FlatVals (flattenElems xs i acc)
  | [], _, _, h => h
  | v :: rest, i, acc, h => by
    show FlatVals (if v.isObjLike then
      flattenElems rest (i + 1) (mergeEntries acc (flattenObject v))
      else flattenElems rest (i + 1) (setKey acc (toString i) v))
    by_cases hv : v.isObjLike = true
    · rw [if_pos hv]
      exact flattenElems_flatVals rest (i + 1) _
        (flatVals_mergeEntries _ _ h (flattenObject_flatVals v))
    · rw [if_neg hv]
      exact flattenElems_flatVals rest (i + 1) _
        (flatVals_setKey h (Bool.eq_false_iff.mpr hv))
end

theorem flattenEntries_keysNodup :
    ∀ (es acc : List (String × JSVal)), KeysNodup acc →
      KeysNodup (flattenEntries es acc)
  | [], _, h => h
  | (k, v) :: rest, acc, h => by
    show KeysNodup (if v.isObjLike then
      flattenEntries rest (mergeEntries acc (flattenObject v))
      else flattenEntries rest (setKey acc k v))
    by_cases hv : v.isObjLike = true
    · rw [if_pos hv]
      exact flattenEntries_keysNodup rest _ (keysNodup_mergeEntries _ _ h)
    · rw [if_neg hv]
      exact flattenEntries_keysNodup rest _ (keysNodup_setKey h)

theorem flattenElems_keysNodup :
    ∀ (xs : List JSVal) (i : Nat) (acc : List (String × JSVal)),
      KeysNodup acc → KeysNodup (flattenElems xs i acc)
  | [], _, _, h => h
  | v :: rest, i, acc, h => by
    show KeysNodup (if v.isObjLike then
      flattenElems rest (i + 1) (mergeEntries acc (flattenObject v))
      else flattenElems rest (i + 1) (setKey acc (toString i) v))
    by_cases hv : v.isObjLike = true
    · rw [if_pos hv]
      exact flattenElems_keysNodup rest (i + 1) _ (keysNodup_mergeEntries _ _ h)
    · rw [if_neg hv]
      exact flattenElems_keysNodup rest (i + 1) _ (keysNodup_setKey h)

/-- The output of `flattenObject` on any object or array has pairwise
distinct keys (it is built by property writes into an initially empty
object). -/
theorem flattenObject_keysNodup (v : JSVal) (h : v.isObjLike = true) :
    KeysNodup (flattenObject v) := by
  match v, h with
  | .vArr xs, _ => exact flattenElems_keysNodup xs 0 [] List.nodup_nil
  | .vObj es, _ => exact flattenEntries_keysNodup es [] List.nodup_nil

/-- On an entry list whose values are all non-objects (so the loop only
copies) with fresh distinct keys, `flattenObject`'s loop appends the entries
to the accumulator unchanged. -/
theorem flattenEntries_of_flat :
    ∀ (es acc : List (String × JSVal)), FlatVals es → KeysNodup es →
      (∀ k ∈ es.map (fun p => p.1), k ∉ acc.map (fun p => p.1)) →
      flattenEntries es acc = acc ++ es
  | [], acc, _, _, _ => by
    show acc = acc ++ []
    simp
  | (k, v) :: rest, acc, hflat, hnd, hdisj => by
    have hv : v.isObjLike = false := hflat (k, v) (List.mem_cons_self _ _)
    show (if v.isObjLike then
      flattenEntries rest (mergeEntries acc (flattenObject v))
      else flattenEntries rest (setKey acc k v)) = acc ++ (k, v) :: rest
    rw [if_neg (by simp [hv])]
    have hkfresh : k ∉ acc.map (fun p => p.1) := hdisj k (by simp)
    rw [setKey_of_fresh v hkfresh]
    have hndrest : KeysNodup rest := by
      unfold KeysNodup at hnd ⊢
      exact (List.nodup_cons.mp hnd).2
    have hknotrest : k ∉ rest.map (fun p => p.1) := by
      unfold KeysNodup at hnd
      exact (List.nodup_cons.mp hnd).1
    have hdisj' : ∀ k' ∈ rest.map (fun p => p.1),
        k' ∉ (acc ++ [(k, v)]).map (fun p => p.1) := by
      intro k' hk'
      rw [List.map_append]
      intro hmem
      rcases List.mem_append.mp hmem with hmem | hmem
      · exact hdisj k' (by simp [hk']) hmem
      · simp only [List.map_cons, List.map_nil, List.mem_singleton] at hmem
        subst hmem
        exact hknotrest hk'
    rw [flattenEntries_of_flat rest (acc ++ [(k, v)])
      (fun q hq => hflat q (List.mem_cons_of_mem _ hq)) hndrest hdisj']
    simp

/-- Flattening an already-flattened object or array changes nothing. -/
theorem flattenObject_flatten_fixed (v : JSVal) (h : v.isObjLike = true) :
    flattenObject (.vObj (flattenObject v)) = flattenObject v := by
  show flattenEntries (flattenObject v) [] = flattenObject v
  rw [flattenEntries_of_flat (flattenObject v) []
    (flattenObject_flatVals v) (flattenObject_keysNodup v h)
    (by intro k _ hk; exact absurd hk (List.not_mem_nil k))]
  simp

/-! ## Registry helper lemmas -/

theorem setProbe_not_found {probes : Registry} {name : String}
    (pc : ProbeConfig) (h : name ∉ probes.map (fun p => p.1)) :
    setProbe probes name pc = probes := by
  unfold setProbe
  conv_rhs => rw [← List.map_id probes]
  apply List.map_congr_left
  intro p hp
  have hne : ¬(p.1 = name) := fun he => h (List.mem_map.mpr ⟨p, hp, he⟩)
  simp [hne]

theorem setProbe_self :
    ∀ (probes : Registry) (name : String) (pc : ProbeConfig),
      RegistryKeysNodup probes → findProbe probes name = some pc →
      setProbe probes name pc = probes
  | [], name, pc, _, hfind => by simp [findProbe] at hfind
  | (k, q) :: rest, name, pc, hnd, hfind => by
    by_cases hk : k = name
    · have hq : pc = q := by
        unfold findProbe at hfind
        rw [List.find?_cons_of_pos _ (by simpa using hk)] at hfind
        simpa using hfind.symm
      have hfresh : name ∉ rest.map (fun p => p.1) := by
        unfold RegistryKeysNodup at hnd
        simp only [List.map_cons, List.nodup_cons] at hnd
        rw [← hk]
        exact hnd.1
      unfold setProbe
      simp only [List.map_cons]
      rw [show ((k, q).1 == name) = true from by simpa using hk]
      have htail : setProbe rest name pc = rest := setProbe_not_found pc hfresh
      unfold setProbe at htail
      simp only [if_pos rfl, htail]
      rw [← hk, hq]
      simp
    · have hfind' : findProbe rest name = some pc := by
        unfold findProbe at hfind ⊢
        rwa [List.find?_cons_of_neg _ (by simpa using hk)] at hfind
      have hnd' : RegistryKeysNodup rest := by
        unfold RegistryKeysNodup at hnd ⊢
        simp only [List.map_cons, List.nodup_cons] at hnd
        exact hnd.2
      have htail := setProbe_self rest name pc hnd' hfind'
      unfold setProbe at htail ⊢
      simp only [List.map_cons]
      rw [show ((k, q).1 == name) = false from by simpa using hk]
      simp only [Bool.false_eq_true, if_false, htail]

theorem toStrings_map_vStr :
    ∀ hs : List String, toStrings (hs.map JSVal.vStr) = some hs
  | [] => rfl
  | s :: rest => by
    show (toStrings (rest.map JSVal.vStr)).map (fun l => s :: l) = some (s :: rest)
    rw [toStrings_map_vStr rest]
    rfl

/-! ## Claims -/

/-- C2 (counterexample): the claim "`normalizeFieldName` replaces every
character not in `[A-Za-z0-9_]` with `_`, and its output always matches
`^[A-Za-z0-9_]*$`" is false at the input `"a^b"`: the regex class
`[^A-Z^a-z^0-9^_]` contains literal carets, so `^` is kept, the output is
`"a^b"` (not `"a_b"`) and contains a character outside `[A-Za-z0-9_]`. -/
theorem normalizeFieldName_caret_kept :
    normalizeFieldName "a^b" ≠ "a_b" ∧
      (normalizeFieldName "a^b").data.all isWordChar = false := by
  constructor
  · decide
  · decide

/-- C2 (amended): `normalizeFieldName` replaces every character outside
`[A-Za-z0-9_^]` (the caret survives because it appears literally in the
regex class) with `_`, leaves every character inside that class unchanged,
its output always matches `^[A-Za-z0-9_^]*$`, and it is idempotent. -/
theorem normalizeFieldName_spec (s : String) :
    (normalizeFieldName s).data.length = s.data.length ∧
      (∀ (i : Nat) (c : Char), s.data[i]? = some c →
        (normalizeFieldName s).data[i]? =
          some (if isKeptChar c then c else '_')) ∧
      (normalizeFieldName s).data.all isKeptChar = true ∧
      normalizeFieldName (normalizeFieldName s) = normalizeFieldName s := by
  refine ⟨?_, ?_, ?_, ?_⟩
  · simp [normalizeFieldName]
  · intro i c h
    simp [normalizeFieldName, List.getElem?_map, h]
  · rw [List.all_eq_true]
    intro c hc
    obtain ⟨c0, _, hc0⟩ := List.mem_map.mp hc
    by_cases hk : isKeptChar c0 = true
    · rw [← hc0, if_pos hk]
      exact hk
    · rw [← hc0, if_neg hk]
      decide
  · show String.mk ((s.data.map _).map _) = String.mk (s.data.map _)
    rw [List.map_map]
    congr 1
    apply List.map_congr_left
    intro c _
    by_cases hk : isKeptChar c = true
    · simp [Function.comp, hk]
    · have h2 : isKeptChar '_' = true := by decide
      simp [Function.comp, hk, h2]

/-- C2 (witness): the amended characterization evaluated at `"a:b^c"`,
whose `:` is replaced, `^` kept, and which normalizes idempotently. -/
theorem normalizeFieldName_spec_witness :
    (normalizeFieldName "a:b").data[1]? = some '_' ∧
      normalizeFieldName (normalizeFieldName "a:b") = normalizeFieldName "a:b" :=
  ⟨(normalizeFieldName_spec "a:b").2.1 1 ':' rfl,
    (normalizeFieldName_spec "a:b").2.2.2⟩

/-- C9 (confirmed): `buildMonitorSchema` emits, in order, one
`{name: normalizeFieldName(hook), type: INTEGER, mode: NULLABLE}` field per
hook followed by the required timestamp field, and
`buildMonitorSchema(["a:b"])` is exactly the two-field schema the spec
displays. -/
theorem buildMonitorSchema_spec (hooks : List String) :
    (buildMonitorSchema hooks).fields.length = hooks.length + 1 ∧
      (∀ (i : Nat) (h : String), hooks[i]? = some h →
        (buildMonitorSchema hooks).fields[i]? =
          some { name := normalizeFieldName h, type := "INTEGER", mode := "NULLABLE" }) ∧
      (buildMonitorSchema hooks).fields[hooks.length]? = some timestampField ∧
      buildMonitorSchema ["a:b"] =
        { fields := [{ name := "a_b", type := "INTEGER", mode := "NULLABLE" },
          { name := "timestamp", type := "TIMESTAMP", mode := "REQUIRED" }] } := by
  refine ⟨?_, ?_, ?_, ?_⟩
  · simp [buildMonitorSchema]
  · intro i h hi
    have hlt : i < hooks.length := by
      by_contra hge
      rw [List.getElem?_eq_none (Nat.le_of_not_lt hge)] at hi
      exact Option.noConfusion hi
    unfold buildMonitorSchema
    rw [List.getElem?_append_left (by simpa using hlt), List.getElem?_map, hi]
    rfl
  · unfold buildMonitorSchema
    rw [List.getElem?_append_right (by simp)]
    simp
  · decide

/-- C9 (witness): the indexed field description evaluated at
`hooks = ["a:b"]`, `i = 0`. -/
theorem buildMonitorSchema_spec_witness :
    (buildMonitorSchema ["a:b"]).fields[0]? =
      some { name := normalizeFieldName "a:b", type := "INTEGER", mode := "NULLABLE" } :=
  (buildMonitorSchema_spec ["a:b"]).2.1 0 "a:b" rfl

/-- C5 (counterexample): the claim "`flattenObject` copies every scalar,
sequence, or null value as-is" is false at `{a: [10, 20]}`: the array is
`typeof 'object'`, so it is recursively dissolved into index-keyed entries
instead of being copied under `"a"`. -/
theorem flattenObject_dissolves_sequence :
    flattenObject (.vObj [("a", .vArr [.vNum 10, .vNum 20])]) =
        [("0", .vNum 10), ("1", .vNum 20)] ∧
      flattenObject (.vObj [("a", .vArr [.vNum 10, .vNum 20])]) ≠
        [("a", .vArr [.vNum 10, .vNum 20])] := by
  refine ⟨rfl, ?_⟩
  intro h
  rw [show flattenObject (.vObj [("a", .vArr [.vNum 10, .vNum 20])]) =
    [("0", .vNum 10), ("1", .vNum 20)] from rfl] at h
  simp at h

/-- C5 (amended): `flattenObject` merges the recursively flattened entries
of every non-null object-typed value — nested mappings AND sequences, the
latter under their index keys — without prefixing, and copies scalar and
null values as-is; consequently it is the identity exactly on mappings
(with JS-unique keys) all of whose values are scalars or null. -/
theorem flattenObject_flat_identity (es : List (String × JSVal))
    (hnd : KeysNodup es) (hflat : FlatVals es) :
    flattenObject (.vObj es) = es := by
  show flattenEntries es [] = es
  rw [flattenEntries_of_flat es [] hflat hnd
    (by intro k _ hk; exact absurd hk (List.not_mem_nil k))]
  simp

/-- C5 (witness): identity on the flat mapping
`{a: 1, b: null, c: "x"}`. -/
theorem flattenObject_flat_identity_witness :
    flattenObject (.vObj [("a", .vNum 1), ("b", .vNull), ("c", .vStr "x")]) =
      [("a", .vNum 1), ("b", .vNull), ("c", .vStr "x")] :=
  flattenObject_flat_identity _ (by unfold KeysNodup; decide)
    (by intro p hp; fin_cases hp <;> rfl)

/-- C10 (confirmed): no value of `flattenObject(m)` is an object or an
array (nested mappings and sequences are both recursively dissolved), and
`flattenObject` is idempotent on mappings. -/
theorem flattenObject_flat_output_idempotent (es : List (String × JSVal)) :
    (flattenObject (.vObj es)).all (fun p => !p.2.isObjLike) = true ∧
      flattenObject (.vObj (flattenObject (.vObj es))) =
        flattenObject (.vObj es) := by
  constructor
  · rw [List.all_eq_true]
    intro p hp
    have := flattenObject_flatVals (.vObj es) p hp
    simp [this]
  · exact flattenObject_flatten_fixed (.vObj es) rfl

/-- C3 (counterexample): the claim "if `data` has a `content` field,
`extractMeasureData` returns a one-element sequence" is false at
`{content: false}`: the source tests the TRUTHINESS of `data.content`, so a
falsy `content` value takes the no-flattening branch and the result is the
plain normalized object, not a sequence. -/
theorem extractMeasureData_falsy_content :
    extractMeasureData [("content", .vBool false)] =
        .vObj [("content", .vBool false)] ∧
      extractMeasureData [("content", .vBool false)] ≠
        .vArr [.vObj (normalizeMeasureData
          (flattenObject (getField [("content", .vBool false)] "content")))] := by
  refine ⟨rfl, ?_⟩
  intro h
  rw [show extractMeasureData [("content", .vBool false)] =
    .vObj [("content", .vBool false)] from rfl] at h
  simp at h

/-- C3 (amended): when `data.content` is TRUTHY, `extractMeasureData`
returns the one-element sequence holding the flattened `content` with
normalized keys; otherwise (including a present-but-falsy `content`) it
returns `data` itself with keys normalized, as a single row object. -/
theorem extractMeasureData_spec (data : List (String × JSVal)) :
    ((getField data "content").truthy = true →
      extractMeasureData data =
        .vArr [.vObj (normalizeMeasureData
          (flattenObject (getField data "content")))]) ∧
      ((getField data "content").truthy = false →
        extractMeasureData data = .vObj (normalizeMeasureData data)) := by
  constructor
  · intro h
    simp [extractMeasureData, h]
  · intro h
    simp [extractMeasureData, h]

/-- C3 (witness): the content branch evaluated at
`{content: {"a b": 1}}` and the plain branch at `{x: 2}`. -/
theorem extractMeasureData_spec_witness :
    extractMeasureData [("content", .vObj [("a b", .vNum 1)])] =
        .vArr [.vObj (normalizeMeasureData
          (flattenObject
            (getField [("content", .vObj [("a b", .vNum 1)])] "content")))] ∧
      extractMeasureData [("x", .vNum 2)] =
        .vObj (normalizeMeasureData [("x", .vNum 2)]) :=
  ⟨(extractMeasureData_spec [("content", .vObj [("a b", .vNum 1)])]).1 rfl,
    (extractMeasureData_spec [("x", .vNum 2)]).2 rfl⟩

/-- Promise-style success test for an `Except` result. -/
def exceptIsOk {ε α : Type} : Except ε α → Bool
  | .ok _ => true
  | .error _ => false

/-- C6 (counterexample): the claim assigns every present `type` other than
'monitor'/'counter' the error "schema is mandatory for probes of type
`<type>`", but a present-and-EMPTY `type` string is falsy in JS, so
`{type: ""}` (no schema) hits the type-mandatory error instead. -/
theorem getSchemaForProbe_empty_type :
    getSchemaForProbe { type := some "" } =
        .error "Type field is mandatory in probes that do not provide schema" ∧
      "Type field is mandatory in probes that do not provide schema" ≠
        "Schema is mandatory for probes of type " ++ "" :=
  ⟨rfl, by decide⟩

/-- C6 (amended): `getSchemaForProbe(probe)` fails exactly when `probe` has
no schema and either (a) `probe.type` is absent OR the empty string, with
the type-field-mandatory error; (b) `probe.type` is 'monitor' and
`probe.hooks` is missing or not an array, with the hooks-field error; or
(c) `probe.type` is any other NONEMPTY type, with the error "Schema is
mandatory for probes of type `<type>`"; in all other cases (schema present,
or monitor with an array of hook-name strings, or counter) it returns a
schema without failing. -/
theorem getSchemaForProbe_spec (probe : ProbeConfig) :
    (probe.schema.isSome = true → exceptIsOk (getSchemaForProbe probe) = true) ∧
      (probe.schema = none → optStrTruthy probe.type = false →
        getSchemaForProbe probe =
          .error "Type field is mandatory in probes that do not provide schema") ∧
      (probe.schema = none → probe.type = some "monitor" →
        probe.hooks.isArray = false →
        getSchemaForProbe probe =
          .error "Monitor probes must have an \"hooks\" field, of type Array.") ∧
      (∀ hs : List String, probe.schema = none → probe.type = some "monitor" →
        probe.hooks = .vArr (hs.map JSVal.vStr) →
        exceptIsOk (getSchemaForProbe probe) = true) ∧
      (probe.schema = none → probe.type = some "counter" →
        exceptIsOk (getSchemaForProbe probe) = true) ∧
      (∀ t : String, probe.schema = none → probe.type = some t → t ≠ "" →
        t ≠ "monitor" → t ≠ "counter" →
        getSchemaForProbe probe =
          .error ("Schema is mandatory for probes of type " ++ t)) := by
  refine ⟨?_, ?_, ?_, ?_, ?_, ?_⟩
  · intro h
    obtain ⟨sch, hs⟩ := Option.isSome_iff_exists.mp h
    simp only [getSchemaForProbe, hs]
    split
    · rfl
    · rfl
  · intro hs hty
    simp only [getSchemaForProbe, hs, hty]
    rfl
  · intro hs hty harr
    simp only [getSchemaForProbe, hs, hty]
    cases hh : probe.hooks <;>
      simp_all +decide [JSVal.isArray, optStrTruthy]
  · intro hs hsch hty hhooks
    simp only [getSchemaForProbe, hsch, hty, hhooks]
    simp +decide [toStrings_map_vStr, exceptIsOk, optStrTruthy]
  · intro hs hty
    simp only [getSchemaForProbe, hs, hty]
    simp +decide [exceptIsOk, optStrTruthy]
  · intro t hs hty hne hnm hnc
    simp only [getSchemaForProbe, hs, hty]
    simp +decide [optStrTruthy, hne, hnm, hnc]

/-- C6 (witness): the amended characterization evaluated at a schemaless
watcher probe, which fails with the schema-mandatory message. -/
theorem getSchemaForProbe_spec_witness :
    getSchemaForProbe { type := some "watcher" } =
      .error ("Schema is mandatory for probes of type " ++ "watcher") :=
  (getSchemaForProbe_spec { type := some "watcher" }).2.2.2.2.2 "watcher"
    rfl rfl (by decide) (by decide) (by decide)

/-- When the probe is not in the watcher-with-schema-and-timestamp shape, a
successful `getSchemaForProbe` hands back the stored configuration
untouched. -/
theorem getSchemaForProbe_preserves (probe : ProbeConfig)
    (hnw : ¬ WatcherTsCase probe) :
    ∀ (sch : BQSchema) (p' : ProbeConfig),
      getSchemaForProbe probe = .ok (sch, p') → p' = probe := by
  intro sch p' hok
  cases hsch : probe.schema with
  | some s =>
    simp only [getSchemaForProbe, hsch] at hok
    by_cases hc : (decide (probe.type = some "watcher") && probe.timestamp.truthy) = true
    · have hc' : probe.type = some "watcher" ∧ probe.timestamp.truthy = true := by
        simpa using hc
      exact absurd ⟨by rw [hsch]; rfl, hc'.1, hc'.2⟩ hnw
    · rw [if_neg hc] at hok
      exact ((Prod.ext_iff.mp (Except.ok.inj hok)).2).symm
  | none =>
    simp only [getSchemaForProbe, hsch] at hok
    by_cases h1 : (!optStrTruthy probe.type) = true
    · rw [if_pos h1] at hok
      exact Except.noConfusion hok
    · rw [if_neg h1] at hok
      by_cases h2 : probe.type = some "monitor"
      · rw [if_pos h2] at hok
        cases hh : probe.hooks with
        | vArr xs =>
          rw [hh] at hok
          cases hts : toStrings xs with
          | some names =>
            simp only [hts] at hok
            exact ((Prod.ext_iff.mp (Except.ok.inj hok)).2).symm
          | none =>
            simp only [hts] at hok
            exact Except.noConfusion hok
        | vUndefined => rw [hh] at hok; exact Except.noConfusion hok
        | vNull => rw [hh] at hok; exact Except.noConfusion hok
        | vBool b => rw [hh] at hok; exact Except.noConfusion hok
        | vNum n => rw [hh] at hok; exact Except.noConfusion hok
        | vStr s => rw [hh] at hok; exact Except.noConfusion hok
        | vObj es => rw [hh] at hok; exact Except.noConfusion hok
      · rw [if_neg h2] at hok
        by_cases h3 : probe.type = some "counter"
        · rw [if_pos h3] at hok
          exact ((Prod.ext_iff.mp (Except.ok.inj hok)).2).symm
        · rw [if_neg h3] at hok
          exact Except.noConfusion hok

/-- C4 (counterexample): the claim "no operation after initialization
modifies any stored ProbeConfig" is false: on a watcher probe with an
explicit schema and truthy timestamp flag, `getSchemaForProbe` pushes the
timestamp field into the probe's OWN schema (`probe.schema.fields.push`),
so the stored configuration changes. -/
theorem getSchemaForProbe_mutates_watcher :
    getSchemaForProbe
        { type := some "watcher", timestamp := .vBool true,
          schema := some { fields :=
            [{ name := "a", type := "STRING", mode := "NULLABLE" }] } } =
      .ok ({ fields := [{ name := "a", type := "STRING", mode := "NULLABLE" },
              timestampField] },
        { type := some "watcher", timestamp := .vBool true,
          schema := some { fields :=
            [{ name := "a", type := "STRING", mode := "NULLABLE" },
              timestampField] } }) ∧
      some ({ fields := [{ name := "a", type := "STRING", mode := "NULLABLE" },
          timestampField] } : BQSchema) ≠
        some ({ fields :=
          [{ name := "a", type := "STRING", mode := "NULLABLE" }] } : BQSchema) :=
  ⟨rfl, by decide⟩

/-- C4 (amended): every operation leaves every stored ProbeConfig unchanged
EXCEPT `getSchemaForProbe` on a probe with an explicit schema, type
'watcher' and truthy timestamp flag, which appends the timestamp field to
the probe's own stored schema (so repeated calls keep appending);
`createTableIfNotExists` leaves a registry of probes outside that shape
unchanged, and `saveMeasure` (modelled registry-pure, as the source never
writes to `this.probes`) cannot modify it at all. -/
theorem registry_immutable_except_watcher_push (probe : ProbeConfig)
    (probes : Registry) (ds name : String) (exOut : ExistsOutcome)
    (crOut : CreateOutcome) :
    (∀ (sch : BQSchema) (p' : ProbeConfig), ¬ WatcherTsCase probe →
      getSchemaForProbe probe = .ok (sch, p') → p' = probe) ∧
      (∀ sch : BQSchema, probe.schema = some sch →
        probe.type = some "watcher" → probe.timestamp.truthy = true →
        getSchemaForProbe probe =
          .ok ({ fields := sch.fields ++ [timestampField] },
            { probe with
              schema := some { fields := sch.fields ++ [timestampField] } })) ∧
      (RegistryKeysNodup probes → (∀ p ∈ probes, ¬ WatcherTsCase p.2) →
        (createTableIfNotExists probes ds name exOut crOut).2.1 = probes) := by
  refine ⟨?_, ?_, ?_⟩
  · intro sch p' hnw hok
    exact getSchemaForProbe_preserves probe hnw sch p' hok
  · intro sch hsch hty hts
    simp only [getSchemaForProbe, hsch]
    rw [if_pos (by rw [hty]; simp [hts])]
  · intro hnd hnw
    unfold createTableIfNotExists
    cases ht : getTableForProbe probes name with
    | none => rfl
    | some tn =>
      dsimp only
      by_cases htn : tn = ""
      · simp [htn]
      · rw [if_neg htn]
        cases hf : findProbe probes name with
        | none =>
          simp only [getTableForProbe, hf] at ht
          exact Option.noConfusion ht
        | some pc =>
          have hmem : ¬ WatcherTsCase pc := by
            unfold findProbe at hf
            cases hff : probes.find? (fun p => p.1 == name) with
            | none => rw [hff] at hf; exact Option.noConfusion hf
            | some q =>
              rw [hff] at hf
              have hq2 : q.2 = pc := by simpa using hf
              have := hnw q (List.mem_of_find?_eq_some hff)
              rwa [hq2] at this
          simp only [Option.getD_some]
          cases exOut with
          | yes => rfl
          | no =>
            cases hok : getSchemaForProbe pc with
            | error e => rfl
            | ok r =>
              obtain ⟨rs, rp⟩ := r
              have hpres : rp = pc :=
                getSchemaForProbe_preserves pc hmem rs rp hok
              have hset : setProbe probes name rp = probes := by
                rw [hpres]
                exact setProbe_self probes name pc hnd hf
              cases crOut <;> simp [hset]
          | failed =>
            cases hok : getSchemaForProbe pc with
            | error e => rfl
            | ok r =>
              obtain ⟨rs, rp⟩ := r
              have hpres : rp = pc :=
                getSchemaForProbe_preserves pc hmem rs rp hok
              have hset : setProbe probes name rp = probes := by
                rw [hpres]
                exact setProbe_self probes name pc hnd hf
              cases crOut <;> simp [hset]

/-- C4 (witness): the immutability half evaluated at a counter probe and a
one-probe registry whose table already exists. -/
theorem registry_immutable_except_watcher_push_witness :
    (createTableIfNotExists [("p", { type := some "counter" })] "ds" "p"
        .yes .ok).2.1 = [("p", { type := some "counter" })] :=
  (registry_immutable_except_watcher_push { type := some "counter" }
      [("p", { type := some "counter" })] "ds" "p" .yes .ok).2.2
    (by unfold RegistryKeysNodup; decide)
    (by
      intro p hp
      have hp' : p = ("p", { type := some "counter" }) := by simpa using hp
      rw [hp']
      intro hw
      exact Bool.noConfusion hw.1)

/-- C8 (confirmed): for a probe name absent from the registry, both
`createTableIfNotExists` and `saveMeasure` return immediately with a
successful outcome, an unchanged registry, zero warehouse calls and zero
log writes. -/
theorem unregistered_probe_noop (probes : Registry) (ds name : String)
    (exOut : ExistsOutcome) (crOut : CreateOutcome) (m : Measure)
    (nowSec : Int) (ins : InsertOutcome)
    (habs : probes.find? (fun p => p.1 == name) = none)
    (hm : m.probeName = name) :
    createTableIfNotExists probes ds name exOut crOut = (.ok (), probes, []) ∧
      saveMeasure probes ds m nowSec ins =
        { outcome := .ok (), calls := [], logs := [] } := by
  have hfp : findProbe probes name = none := by
    unfold findProbe
    rw [habs]
  have hgt : getTableForProbe probes name = none := by
    unfold getTableForProbe
    rw [hfp]
  constructor
  · unfold createTableIfNotExists
    rw [hgt]
  · unfold saveMeasure
    rw [hm, hgt]

/-- C8 (witness): evaluated at a one-probe registry and the foreign probe
name "y". -/
theorem unregistered_probe_noop_witness :
    createTableIfNotExists [("x", {})] "ds" "y" .no .failed =
        (.ok (), [("x", {})], []) ∧
      saveMeasure [("x", {})] "ds"
          { probeName := "y", data := [("a", .vNum 1)] } 3 (.failed "e") =
        { outcome := .ok (), calls := [], logs := [] } :=
  unregistered_probe_noop [("x", {})] "ds" "y" .no .failed
    { probeName := "y", data := [("a", .vNum 1)] } 3 (.failed "e") rfl rfl

/-- C1 (counterexample): the claim "on every code path of `saveMeasure`
after table-name resolution, the operation neither throws nor yields a
rejected result" is false: for a registered probe with a truthy `timestamp`
flag and a measure without a (truthy) `content` field, the extracted data
is a plain object, `data[0]` is `undefined`, and
`data[0].timestamp = ...` throws a `TypeError` before the insert. -/
theorem saveMeasure_throws_on_plain_object_timestamp :
    (saveMeasure [("p1", { timestamp := .vBool true })] "ds"
        { probeName := "p1", data := [("x", .vNum 1)] } 77 .ok).outcome =
      .error () := rfl

/-- C1 (amended): for every measure of a registered probe for which the
timestamp-injection statement cannot fault — the probe's `timestamp` flag
is falsy/undefined, or the measure's data has a truthy `content` field so
the extracted data is the one-element array — `saveMeasure` neither throws
nor propagates the insert rejection, and whenever the insert call is made
and fails, the failure reaches the logging collaborator's error sink. -/
theorem saveMeasure_swallows_insert_failure (probes : Registry)
    (ds : String) (m : Measure) (nowSec : Int) (ins : InsertOutcome)
    (hsafe : tsFlagOf probes m.probeName = true →
      (getField m.data "content").truthy = true) :
    (saveMeasure probes ds m nowSec ins).outcome = .ok () ∧
      (∀ msg, ins = .failed msg →
        (saveMeasure probes ds m nowSec ins).calls ≠ [] →
        LogEntry.error
            ("Something weird happened while saving the measure: " ++ msg) ∈
          (saveMeasure probes ds m nowSec ins).logs) := by
  unfold saveMeasure
  cases ht : getTableForProbe probes m.probeName with
  | none => exact ⟨rfl, fun msg _ hc => absurd rfl hc⟩
  | some tn =>
    dsimp only
    by_cases htn : tn = ""
    · rw [if_pos htn]
      exact ⟨rfl, fun msg _ hc => absurd rfl hc⟩
    · rw [if_neg htn]
      by_cases hts : tsFlagOf probes m.probeName = true
      · have hcontent := hsafe hts
        rw [if_pos hts]
        simp only [extractMeasureData, hcontent, if_true]
        constructor
        · rfl
        · intro msg hins _
          rw [hins]
          simp [injectTimestamp, finishInsert, Except.map]
      · rw [if_neg hts]
        constructor
        · rfl
        · intro msg hins _
          rw [hins]
          simp [finishInsert]

/-- C1 (witness): a registered probe without a timestamp flag whose insert
fails: the outcome is still success and the failure is logged. -/
theorem saveMeasure_swallows_insert_failure_witness :
    (saveMeasure [("p", {})] "ds"
        { probeName := "p", data := [("x", .vNum 1)] } 5
        (.failed "boom")).outcome = .ok () ∧
      LogEntry.error
          ("Something weird happened while saving the measure: " ++ "boom") ∈
        (saveMeasure [("p", {})] "ds"
          { probeName := "p", data := [("x", .vNum 1)] } 5
          (.failed "boom")).logs :=
  ⟨(saveMeasure_swallows_insert_failure [("p", {})] "ds"
      { probeName := "p", data := [("x", .vNum 1)] } 5 (.failed "boom")
      (fun h => Bool.noConfusion h)).1,
    (saveMeasure_swallows_insert_failure [("p", {})] "ds"
        { probeName := "p", data := [("x", .vNum 1)] } 5 (.failed "boom")
        (fun h => Bool.noConfusion h)).2 "boom" rfl
      (fun h => List.noConfusion h)⟩

/-- C7 (code bug): `saveMeasure` is supposed to inject the client-side Unix
timestamp into the row(s) whenever the registered probe's `timestamp` flag
is truthy; but on a measure without a `content` envelope the extracted data
is a plain object, so `data[0].timestamp = ...` throws a `TypeError`
(`data[0]` is `undefined`) and the insert is never issued: evaluated at a
counter probe with `timestamp: true` and the measure `{count: 3}`, the
operation faults with zero warehouse calls instead of inserting a
timestamped row. -/
theorem saveMeasure_timestamp_injection_crashes :
    (saveMeasure [("c1", { type := some "counter", timestamp := .vBool true })]
        "ds" { probeName := "c1", data := [("count", .vNum 3)] } 99
        .ok).outcome = .error () ∧
      (saveMeasure [("c1", { type := some "counter", timestamp := .vBool true })]
        "ds" { probeName := "c1", data := [("count", .vNum 3)] } 99
        .ok).calls = [] :=
  ⟨rfl, rfl⟩

end KdcBigQuery
